import Mathlib

/-!
Shallow embedding of xtsttopng.c (xorg/app/xtsttopng).

Modelling decisions, each matched against the C source:

* The skip list (`struct xts_color` with `next[0]` chains) is modelled by its
  level-0 chain, a `List XtsColor` kept in ascending pixel order.  The higher
  levels are a search accelerator only: they never change which entries exist,
  their order on the level-0 chain, or the fields of any entry, so every
  observable of the program (sorted iteration, `num_colors`, assigned colors,
  rendered output) is a function of the level-0 chain.  `calloc` zero-fills the
  record, so a fresh entry carries r = g = b = 0.
* C `float` arithmetic is modelled by exact rationals.  All concrete values
  appearing in the claims (h in 0, 1/3, 2/3; s in 0, 1; v in 0, 1/2, 1) are
  computed exactly by IEEE single precision along the code's data flow (the
  only rounding steps, 1/3 * 6 and 2/3 * 6, land back on the exact integers 2
  and 4), so the rational model agrees with the C program on every input used
  below.
* `fscanf`/`fgets`/`sscanf` input is modelled as a list of text lines; the
  `%x` / `%d` conversions are modelled as whitespace skipping followed by a
  maximal digit run (the optional sign and 0x-prefix forms accepted by scanf
  do not occur in any claim input).
* `read_image` returns NULL both at a clean end of input and after printing a
  diagnostic; the embedding keeps the two NULL paths apart with distinct
  constructors (`stop` = silent NULL, `bodyError msg` = NULL after printing
  msg), which is exactly what a caller plus stdout can observe.
* The one fallible allocation whose failure path the claims mention, the
  `malloc` of the image in `read_image`, is exposed as an explicit `allocOk`
  flag; `allocOk = true` is the ordinary run.
-/

/-- Level-0 view of `struct xts_color`: the pixel key and the three color
channels filled in by `assign_hsv`.  `calloc` zero-initialises the record. -/
structure XtsColor where
  pixel : Nat
  r : Nat
  g : Nat
  b : Nat
deriving DecidableEq

/-- A freshly allocated entry (`alloc_color` uses `calloc`, so all channels
start at 0). -/
def newColor (p : Nat) : XtsColor := ⟨p, 0, 0, 0⟩

/-- `struct xts_image`: header fields, the color table (level-0 chain plus the
`num_colors` counter the C code maintains separately), and the pixel buffer. -/
structure XtsImage where
  width : Nat
  height : Nat
  depth : Nat
  colors : List XtsColor
  num_colors : Nat
  pixels : List Nat
deriving DecidableEq

/-- The image `read_image` builds right after its `malloc`: header fields set,
`colors` chains zeroed, `num_colors = 0`, pixel buffer still empty. -/
def emptyImage (w h d : Nat) : XtsImage := ⟨w, h, d, [], 0, []⟩

/-- Pixel keys of a chain, in chain order. -/
def chainKeys (cs : List XtsColor) : List Nat := cs.map XtsColor.pixel

/-- `find_color`, restricted to the level-0 chain: walk the sorted chain
(`if (s->pixel == pixel) return s; if (s->pixel > pixel) break;`), returning
the entry found or a freshly allocated one spliced in at the break position,
plus a flag recording whether an allocation (and `++image->num_colors`)
happened. -/
def find_color_chain : List XtsColor → Nat → XtsColor × List XtsColor × Bool
  | [], p => (newColor p, [newColor p], true)
  | c :: cs, p =>
    if c.pixel = p then (c, c :: cs, false)
    else if p < c.pixel then (newColor p, newColor p :: c :: cs, true)
    else
      let r := find_color_chain cs p
      (r.1, c :: r.2.1, r.2.2)

/-- `find_color` on the image: update the chain and bump `num_colors` exactly
when a new entry was allocated. -/
def find_color (img : XtsImage) (p : Nat) : XtsColor × XtsImage :=
  let r := find_color_chain img.colors p
  (r.1, { img with
          colors := r.2.1,
          num_colors := if r.2.2 then img.num_colors + 1 else img.num_colors })

/-- The table-mutation part of a `find_color` call. -/
def insertPixel (img : XtsImage) (p : Nat) : XtsImage := (find_color img p).2

/-- A color table populated by a sequence of `find_color` calls starting from
a fresh table. -/
def buildTable (ps : List Nat) : XtsImage := ps.foldl insertPixel (emptyImage 0 0 0)

/-- Sorted iteration over the table is the level-0 chain walk
(`for (c = image->colors[0]; c; c = c->next[0])`). -/
def iterate_sorted (img : XtsImage) : List XtsColor := img.colors

/-- `float_to_uint`: `floor (x * 255.0)` stored into a `uint16_t`.  Every
value the program feeds it lies in [0, 1], where the conversion is exact. -/
def float_to_uint (x : ℚ) : Nat := (Int.floor (x * 255)).toNat

/-- The `while (h6 >= 6) h6 -= 6;` loop of `assign_hsv`. -/
def wrap6 (x : ℚ) : ℚ := if x < 6 then x else x - 6 * Int.floor (x / 6)

/-- `assign_hsv`, computing the (r, g, b) channels from (h, s, v).  The
`s == 0` branch reproduces the source verbatim: it converts `s` (not `v`).
The final catch-all mirrors the C switch falling through with r, g, b
untouched; it is unreachable for h in [0, 1), the only range the program
uses. -/
def assign_hsv (h s v : ℚ) : Nat × Nat × Nat :=
  if v = 0 then (0, 0, 0)
  else if s = 0 then (float_to_uint s, float_to_uint s, float_to_uint s)
  else
    let h6 := wrap6 (h * 6)
    let i : Int := Int.floor h6
    let f : ℚ := h6 - i
    let p := v * (1 - s)
    let q := v * (1 - s * f)
    let t := v * (1 - s * (1 - f))
    if i = 0 then (float_to_uint v, float_to_uint t, float_to_uint p)
    else if i = 1 then (float_to_uint q, float_to_uint v, float_to_uint p)
    else if i = 2 then (float_to_uint p, float_to_uint v, float_to_uint t)
    else if i = 3 then (float_to_uint p, float_to_uint q, float_to_uint v)
    else if i = 4 then (float_to_uint t, float_to_uint p, float_to_uint v)
    else if i = 5 then (float_to_uint v, float_to_uint p, float_to_uint q)
    else (0, 0, 0)

/-- Store an (r, g, b) triple into an entry. -/
def setColor (c : XtsColor) (rgb : Nat × Nat × Nat) : XtsColor :=
  { c with r := rgb.1, g := rgb.2.1, b := rgb.2.2 }

/-- The chain walk of `assign_rgb`: entry number `i` (zero-based) receives
`assign_hsv` of h = i / num_colors, s = 1, v = 0.5. -/
def assign_rgb_aux (n : Nat) : Nat → List XtsColor → List XtsColor
  | _, [] => []
  | i, c :: cs =>
    setColor c (assign_hsv ((i : ℚ) / (n : ℚ)) 1 (1 / 2)) :: assign_rgb_aux n (i + 1) cs

/-- `assign_rgb`: color every entry of the table, walking the sorted chain. -/
def assign_rgb (img : XtsImage) : XtsImage :=
  { img with colors := assign_rgb_aux img.num_colors 0 img.colors }

/-- Whitespace as skipped by scanf conversions. -/
def isWS (c : Char) : Bool := c = ' ' || c = '\t' || c = '\n' || c = '\r'

/-- Skip leading whitespace. -/
def skipWS : List Char → List Char
  | [] => []
  | c :: cs => if isWS c then skipWS cs else c :: cs

/-- Value of one hexadecimal digit, if any. -/
def hexVal (c : Char) : Option Nat :=
  if '0' ≤ c ∧ c ≤ '9' then some (c.toNat - '0'.toNat)
  else if 'a' ≤ c ∧ c ≤ 'f' then some (c.toNat - 'a'.toNat + 10)
  else if 'A' ≤ c ∧ c ≤ 'F' then some (c.toNat - 'A'.toNat + 10)
  else none

/-- Consume a maximal run of hexadecimal digits, accumulating the value. -/
def takeHex (acc : Nat) : List Char → Nat × List Char
  | [] => (acc, [])
  | c :: cs =>
    match hexVal c with
    | some d => takeHex (acc * 16 + d) cs
    | none => (acc, c :: cs)

/-- One `%x` conversion: skip whitespace, then require at least one hex
digit. -/
def parseHexNum (cs : List Char) : Option (Nat × List Char) :=
  match skipWS cs with
  | [] => none
  | c :: cs' =>
    match hexVal c with
    | some d => some (takeHex d cs')
    | none => none

/-- Value of one decimal digit, if any. -/
def decVal (c : Char) : Option Nat :=
  if '0' ≤ c ∧ c ≤ '9' then some (c.toNat - '0'.toNat) else none

/-- Consume a maximal run of decimal digits, accumulating the value. -/
def takeDec (acc : Nat) : List Char → Nat × List Char
  | [] => (acc, [])
  | c :: cs =>
    match decVal c with
    | some d => takeDec (acc * 10 + d) cs
    | none => (acc, c :: cs)

/-- One `%d` conversion: skip whitespace, then require at least one decimal
digit. -/
def parseDecNum (cs : List Char) : Option (Nat × List Char) :=
  match skipWS cs with
  | [] => none
  | c :: cs' =>
    match decVal c with
    | some d => some (takeDec d cs')
    | none => none

/-- The body-line parser of `read_image`: first
`sscanf (line, "%x,%lx", &run, &pixel)`; when that does not match both
conversions (no leading hex digits at all make both scans fail; a hex number
not followed by a comma-and-hex makes the first scan return 1), fall back to
`sscanf (line, "%x", &pixel)` with an implicit run of 1. -/
def parseLine (s : String) : Option (Nat × Nat) :=
  match parseHexNum s.toList with
  | none => none
  | some (run, rest) =>
    match rest with
    | ',' :: rest2 =>
      match parseHexNum rest2 with
      | some (pixel, _) => some (run, pixel)
      | none => some (1, run)
    | _ => some (1, run)

/-- The header scan `fscanf (file, "%d %d %d\n", &width, &height, &depth)`,
on one line of input: three decimal numbers, each after optional
whitespace. -/
def parseHeader (s : String) : Option (Nat × Nat × Nat) :=
  match parseDecNum s.toList with
  | none => none
  | some (w, r1) =>
    match parseDecNum r1 with
    | none => none
    | some (h, r2) =>
      match parseDecNum r2 with
      | none => none
      | some (d, _) => some (w, h, d)

/-- Outcome of one `read_image` call.  `stop` is a NULL return with nothing
printed (end of input, unparsable header, or failed `malloc`); `bodyError m`
is a NULL return after `printf` of the diagnostic `m` and `free (image)`;
`ok img rest` returns the image with the unconsumed lines. -/
inductive ReadResult where
  | stop : ReadResult
  | bodyError : String → ReadResult
  | ok : XtsImage → List String → ReadResult
deriving DecidableEq

/-- The `while (count > 0)` body loop of `read_image`: read a line (`fgets`
NULL prints "run bad"), parse it (`parseLine` failure prints "run bad"), call
`find_color` on the pixel, copy the run into the buffer while pixels are still
needed, and print "run left over" if the run was not exhausted
(`if (run) ...`), i.e. exactly when the declared run exceeds the remaining
count. -/
def read_body : XtsImage → List Nat → Nat → List String → ReadResult
  | img, px, count, [] =>
    if count = 0 then .ok { img with pixels := px } [] else .bodyError "run bad"
  | img, px, count, l :: ls =>
    if count = 0 then .ok { img with pixels := px } (l :: ls)
    else
      match parseLine l with
      | none => .bodyError "run bad"
      | some (run, pixel) =>
        let img' := (find_color img pixel).2
        if count < run then .bodyError "run left over"
        else read_body img' (px ++ List.replicate run pixel) (count - run) ls

/-- `read_image` with the image `malloc` made explicit: parse the header
(failure or end of input returns NULL silently), allocate the image
(`allocOk = false` models the `if (!image) return NULL;` path), run the body
loop, and finish with `assign_rgb` before returning the frame. -/
def read_image_a (allocOk : Bool) (lines : List String) : ReadResult :=
  match lines with
  | [] => .stop
  | l :: ls =>
    match parseHeader l with
    | none => .stop
    | some (w, h, _d) =>
      if allocOk then
        match read_body (emptyImage w h _d) [] (w * h) ls with
        | .ok img rest => .ok (assign_rgb img) rest
        | r => r
      else .stop

/-- `read_image` in an ordinary run (every allocation succeeds). -/
def read_image (lines : List String) : ReadResult := read_image_a true lines

/-- Ghost instrumentation for the `find_color` call sites inside
`read_image`'s body loop: the loop calls `find_color` exactly once per
fetched-and-parsed line, before copying the run, including on a line whose
run then turns out to overrun the remaining count. -/
def body_calls (count : Nat) : List String → Nat
  | [] => 0
  | l :: ls =>
    if count = 0 then 0
    else
      match parseLine l with
      | none => 0
      | some (run, _) =>
        if count < run then 1 else 1 + body_calls (count - run) ls

/-- The per-file loop of `main` (`while ((image = read_image(input)) != NULL)`),
with explicit fuel; `read_image` consumes at least the header line on every
success, so fuel `lines.length + 1` never runs out (proved below as
`processFileAux_fuel_irrel`). -/
def processFileAux (allocOk : Bool) : Nat → List String → List XtsImage
  | 0, _ => []
  | fuel + 1, lines =>
    match read_image_a allocOk lines with
    | .ok img rest => img :: processFileAux allocOk fuel rest
    | _ => []

/-- All frames decoded from one input file. -/
def processFileA (allocOk : Bool) (lines : List String) : List XtsImage :=
  processFileAux allocOk (lines.length + 1) lines

/-- The batch loop of `main` over input files, ordinary allocations. -/
def processFiles (files : List (List String)) : List (List XtsImage) :=
  files.map (processFileA true)

/-- The batch loop of `main` with a per-file allocation flag for the image
`malloc` of that file's first `read_image` call. -/
def mainRunA (allocs : List Bool) (files : List (List String)) :
    List (List XtsImage) :=
  List.zipWith processFileA allocs files

/-- The rendering loop shared by `dump_png` and `dump_ppm`: resolve every
pixel of the buffer through `find_color` (threading the table state exactly as
the C code does, although on a decoded frame every lookup hits) and pack the
channels as `(b << 16) | (g << 8) | r`. -/
def render_aux : XtsImage → List Nat → List Nat
  | _, [] => []
  | img, p :: ps =>
    let r := find_color img p
    (r.1.b <<< 16 ||| r.1.g <<< 8 ||| r.1.r) :: render_aux r.2 ps

/-- The packed RGB buffer `dump_png` builds for a frame. -/
def render (img : XtsImage) : List Nat := render_aux img img.pixels

/-- The frame decoded from `["1 1 8", "ab"]`: one pixel 0xab, one table entry,
colored by `assign_hsv 0 1 (1/2)` = (127, 0, 0). -/
def exImg1 : XtsImage := ⟨1, 1, 8, [⟨0xab, 127, 0, 0⟩], 1, [0xab]⟩

/-- The same frame before `assign_rgb` runs. -/
def exImg1raw : XtsImage := ⟨1, 1, 8, [⟨0xab, 0, 0, 0⟩], 1, [0xab]⟩

/-- The frame decoded from `["2 1 8", "0002,ff"]`. -/
def exImg2 : XtsImage := ⟨2, 1, 8, [⟨0xff, 127, 0, 0⟩], 1, [0xff, 0xff]⟩

/-- The same frame before `assign_rgb` runs. -/
def exImg2raw : XtsImage := ⟨2, 1, 8, [⟨0xff, 0, 0, 0⟩], 1, [0xff, 0xff]⟩

/-! Helper lemmas. -/

theorem chainKeys_nil : chainKeys [] = [] := rfl

theorem chainKeys_cons (c : XtsColor) (cs : List XtsColor) :
    chainKeys (c :: cs) = c.pixel :: chainKeys cs := rfl

-- assign_hsv at the three hue values reached with three table entries
theorem hsv_h0 : assign_hsv 0 1 (1 / 2) = (127, 0, 0) := by
  norm_num [assign_hsv, wrap6, float_to_uint]
  all_goals decide

theorem hsv_h13 : assign_hsv (1 / 3) 1 (1 / 2) = (0, 127, 0) := by
  norm_num [assign_hsv, wrap6, float_to_uint]
  all_goals decide

theorem hsv_h23 : assign_hsv (2 / 3) 1 (1 / 2) = (0, 0, 127) := by
  norm_num [assign_hsv, wrap6, float_to_uint]
  all_goals decide

-- concrete frame decodes used by several counterexamples and witnesses
theorem assign_exImg1 : assign_rgb exImg1raw = exImg1 := by
  simp [assign_rgb, assign_rgb_aux, exImg1raw, exImg1]
  norm_num [hsv_h0, setColor]

theorem assign_exImg2 : assign_rgb exImg2raw = exImg2 := by
  simp [assign_rgb, assign_rgb_aux, exImg2raw, exImg2]
  norm_num [hsv_h0, setColor]

theorem read_image_a_ab : read_image_a true ["1 1 8", "ab"] = .ok exImg1 [] := by
  have hb : read_body (emptyImage 1 1 8) [] 1 ["ab"] = .ok exImg1raw [] := by decide
  have hh : parseHeader "1 1 8" = some (1, 1, 8) := by decide
  simp [read_image_a, hh, hb, assign_exImg1]

theorem read_image_ab : read_image ["1 1 8", "ab"] = .ok exImg1 [] :=
  read_image_a_ab

theorem read_image_ab_junk : read_image ["1 1 8", "ab", "zz"] = .ok exImg1 ["zz"] := by
  have hb : read_body (emptyImage 1 1 8) [] 1 ["ab", "zz"] = .ok exImg1raw ["zz"] := by
    decide
  have hh : parseHeader "1 1 8" = some (1, 1, 8) := by decide
  simp [read_image, read_image_a, hh, hb, assign_exImg1]

theorem read_image_run2 : read_image ["2 1 8", "0002,ff"] = .ok exImg2 [] := by
  have hb : read_body (emptyImage 2 1 8) [] 2 ["0002,ff"] = .ok exImg2raw [] := by decide
  have hh : parseHeader "2 1 8" = some (2, 1, 8) := by decide
  simp [read_image, read_image_a, hh, hb, assign_exImg2]

-- level-0 chain lemmas for find_color_chain
theorem fcc_keys_mem (cs : List XtsColor) (p q : Nat) :
    q ∈ chainKeys (find_color_chain cs p).2.1 ↔ q = p ∨ q ∈ chainKeys cs := by
  induction cs with
  | nil => simp [find_color_chain, chainKeys, newColor]
  | cons c cs ih =>
    by_cases h1 : c.pixel = p
    · subst h1
      simp [find_color_chain, chainKeys_cons, List.mem_cons]
    · by_cases h2 : p < c.pixel
      · simp [find_color_chain, h1, h2, chainKeys_cons, newColor, List.mem_cons]
      · simp only [find_color_chain, if_neg h1, if_neg h2, chainKeys_cons,
          List.mem_cons, ih]
        tauto

theorem fcc_keys_toFinset (cs : List XtsColor) (p : Nat) :
    (chainKeys (find_color_chain cs p).2.1).toFinset
      = insert p (chainKeys cs).toFinset := by
  apply Finset.ext
  intro q
  simp [List.mem_toFinset, fcc_keys_mem]

theorem fcc_sorted (cs : List XtsColor) (p : Nat)
    (hs : List.Pairwise (· < ·) (chainKeys cs)) :
    List.Pairwise (· < ·) (chainKeys (find_color_chain cs p).2.1) := by
  induction cs with
  | nil => simp [find_color_chain, chainKeys, newColor]
  | cons c cs ih =>
    rw [chainKeys_cons, List.pairwise_cons] at hs
    obtain ⟨hhead, htail⟩ := hs
    by_cases h1 : c.pixel = p
    · simp only [find_color_chain, if_pos h1]
      rw [chainKeys_cons, List.pairwise_cons]
      exact ⟨hhead, htail⟩
    · by_cases h2 : p < c.pixel
      · simp only [find_color_chain, if_neg h1, if_pos h2]
        rw [chainKeys_cons, chainKeys_cons, List.pairwise_cons, List.pairwise_cons]
        refine ⟨?_, hhead, htail⟩
        intro q hq
        rcases List.mem_cons.mp hq with hq | hq
        · simpa [newColor, hq] using h2
        · exact lt_trans h2 (hhead q hq)
      · simp only [find_color_chain, if_neg h1, if_neg h2]
        rw [chainKeys_cons, List.pairwise_cons]
        refine ⟨?_, ih htail⟩
        intro q hq
        rcases (fcc_keys_mem cs p q).mp hq with hq | hq
        · subst hq
          omega
        · exact hhead q hq

theorem fcc_len (cs : List XtsColor) (p : Nat) :
    (find_color_chain cs p).2.1.length
      = cs.length + (if (find_color_chain cs p).2.2 then 1 else 0) := by
  induction cs with
  | nil => simp [find_color_chain]
  | cons c cs ih =>
    by_cases h1 : c.pixel = p
    · simp [find_color_chain, h1]
    · by_cases h2 : p < c.pixel
      · simp [find_color_chain, h1, h2]
      · simp only [find_color_chain, if_neg h1, if_neg h2, List.length_cons, ih]
        ring

theorem fcc_fresh (cs : List XtsColor) (p : Nat)
    (hf : ∀ c ∈ cs, c = newColor c.pixel) :
    ∀ c ∈ (find_color_chain cs p).2.1, c = newColor c.pixel := by
  induction cs with
  | nil =>
    simp [find_color_chain, newColor]
  | cons c cs ih =>
    have hfc := hf c (List.mem_cons_self c cs)
    have hft : ∀ e ∈ cs, e = newColor e.pixel := fun e he =>
      hf e (List.mem_cons_of_mem c he)
    by_cases h1 : c.pixel = p
    · simpa [find_color_chain, h1] using hf
    · by_cases h2 : p < c.pixel
      · intro e he
        simp only [find_color_chain, if_neg h1, if_pos h2, List.mem_cons] at he
        rcases he with he | he | he
        · simp [he, newColor]
        · rw [he]; exact hfc
        · exact hft e he
      · intro e he
        simp only [find_color_chain, if_neg h1, if_neg h2, List.mem_cons] at he
        rcases he with he | he
        · rw [he]; exact hfc
        · exact ih hft e he

theorem fcc_found (cs : List XtsColor) (p : Nat)
    (hs : List.Pairwise (· < ·) (chainKeys cs)) (hm : p ∈ chainKeys cs) :
    (find_color_chain cs p).2.1 = cs ∧ (find_color_chain cs p).2.2 = false ∧
    (find_color_chain cs p).1 ∈ cs ∧ (find_color_chain cs p).1.pixel = p := by
  induction cs with
  | nil => simp [chainKeys] at hm
  | cons c cs ih =>
    rw [chainKeys_cons, List.pairwise_cons] at hs
    obtain ⟨hhead, htail⟩ := hs
    by_cases h1 : c.pixel = p
    · refine ⟨?_, ?_, ?_, ?_⟩ <;> simp [find_color_chain, h1]
    · have hm' : p ∈ chainKeys cs := by
        rcases List.mem_cons.mp hm with hm | hm
        · exact absurd hm.symm h1
        · exact hm
      have h2 : ¬ p < c.pixel := by
        have := hhead p hm'
        omega
      obtain ⟨ih1, ih2, ih3, ih4⟩ := ih htail hm'
      refine ⟨?_, ?_, ?_, ?_⟩ <;>
        simp [find_color_chain, h1, h2, ih1, ih2, ih4, List.mem_cons.mpr (Or.inr ih3)]

-- a strictly ascending key list is duplicate-free
theorem keys_nodup (ks : List Nat) (hs : List.Pairwise (· < ·) ks) : ks.Nodup :=
  hs.imp (fun h => Nat.ne_of_lt h)

-- two strictly ascending key lists with the same underlying set are equal
theorem sorted_keys_eq (k1 k2 : List Nat)
    (h1 : List.Pairwise (· < ·) k1) (h2 : List.Pairwise (· < ·) k2)
    (ht : k1.toFinset = k2.toFinset) : k1 = k2 := by
  have perm := List.perm_of_nodup_nodup_toFinset_eq (keys_nodup k1 h1)
    (keys_nodup k2 h2) ht
  exact List.eq_of_perm_of_sorted perm (h1.imp fun h => le_of_lt h)
    (h2.imp fun h => le_of_lt h)

-- a chain of freshly allocated entries is determined by its key list
theorem chain_eq_map (cs : List XtsColor) (hf : ∀ c ∈ cs, c = newColor c.pixel) :
    cs = (chainKeys cs).map newColor := by
  induction cs with
  | nil => rfl
  | cons c cs ih =>
    rw [chainKeys_cons, List.map_cons]
    rw [← ih fun e he => hf e (List.mem_cons_of_mem c he)]
    rw [← hf c (List.mem_cons_self c cs)]

-- two images with equal fields are equal
theorem image_eq_of_fields (a b : XtsImage) (hw : a.width = b.width)
    (hh : a.height = b.height) (hd : a.depth = b.depth) (hc : a.colors = b.colors)
    (hn : a.num_colors = b.num_colors) (hp : a.pixels = b.pixels) : a = b := by
  cases a
  cases b
  simp_all

-- insertPixel leaves the header fields and pixel buffer alone
theorem insertPixel_fields (img : XtsImage) (p : Nat) :
    (insertPixel img p).width = img.width ∧ (insertPixel img p).height = img.height ∧
    (insertPixel img p).depth = img.depth ∧ (insertPixel img p).pixels = img.pixels := by
  simp [insertPixel, find_color]

-- the running invariant of a table populated by find_color calls
theorem build_inv (ps : List Nat) (img : XtsImage)
    (hs : List.Pairwise (· < ·) (chainKeys img.colors))
    (hn : img.num_colors = img.colors.length)
    (hf : ∀ c ∈ img.colors, c = newColor c.pixel) :
    List.Pairwise (· < ·) (chainKeys (ps.foldl insertPixel img).colors) ∧
    (ps.foldl insertPixel img).num_colors = (ps.foldl insertPixel img).colors.length ∧
    (∀ c ∈ (ps.foldl insertPixel img).colors, c = newColor c.pixel) ∧
    (chainKeys (ps.foldl insertPixel img).colors).toFinset
      = (chainKeys img.colors).toFinset ∪ ps.toFinset ∧
    (ps.foldl insertPixel img).width = img.width ∧
    (ps.foldl insertPixel img).height = img.height ∧
    (ps.foldl insertPixel img).depth = img.depth ∧
    (ps.foldl insertPixel img).pixels = img.pixels := by
  induction ps generalizing img with
  | nil => exact ⟨hs, hn, hf, by simp, rfl, rfl, rfl, rfl⟩
  | cons p ps ih =>
    have hs' : List.Pairwise (· < ·) (chainKeys (insertPixel img p).colors) := by
      simpa [insertPixel, find_color] using fcc_sorted img.colors p hs
    have hn' : (insertPixel img p).num_colors = (insertPixel img p).colors.length := by
      simp only [insertPixel, find_color]
      rw [fcc_len img.colors p, hn]
      split <;> simp
    have hf' : ∀ c ∈ (insertPixel img p).colors, c = newColor c.pixel := by
      simpa [insertPixel, find_color] using fcc_fresh img.colors p hf
    obtain ⟨a1, a2, a3, a4, a5, a6, a7, a8⟩ := ih (insertPixel img p) hs' hn' hf'
    have hkeys : (chainKeys (insertPixel img p).colors).toFinset
        = insert p (chainKeys img.colors).toFinset := by
      simpa [insertPixel, find_color] using fcc_keys_toFinset img.colors p
    obtain ⟨b1, b2, b3, b4⟩ := insertPixel_fields img p
    refine ⟨by simpa using a1, by simpa using a2, by simpa using a3, ?_, ?_, ?_, ?_, ?_⟩
    · rw [List.foldl_cons, a4, hkeys, List.toFinset_cons]
      rw [Finset.insert_union, Finset.union_insert]
    · rw [List.foldl_cons, a5, b1]
    · rw [List.foldl_cons, a6, b2]
    · rw [List.foldl_cons, a7, b3]
    · rw [List.foldl_cons, a8, b4]

-- a populated table is determined by the set of pixel values inserted
theorem buildTable_eq_of_toFinset (l1 l2 : List Nat)
    (h : l1.toFinset = l2.toFinset) : buildTable l1 = buildTable l2 := by
  obtain ⟨a1, a2, a3, a4, a5, a6, a7, a8⟩ :=
    build_inv l1 (emptyImage 0 0 0) (by simp [emptyImage, chainKeys]) rfl
      (by simp [emptyImage])
  obtain ⟨b1, b2, b3, b4, b5, b6, b7, b8⟩ :=
    build_inv l2 (emptyImage 0 0 0) (by simp [emptyImage, chainKeys]) rfl
      (by simp [emptyImage])
  have hk : chainKeys (List.foldl insertPixel (emptyImage 0 0 0) l1).colors
      = chainKeys (List.foldl insertPixel (emptyImage 0 0 0) l2).colors := by
    apply sorted_keys_eq _ _ a1 b1
    rw [a4, b4, h]
  have hc : (List.foldl insertPixel (emptyImage 0 0 0) l1).colors
      = (List.foldl insertPixel (emptyImage 0 0 0) l2).colors := by
    rw [chain_eq_map _ a3, chain_eq_map _ b3, hk]
  simp only [buildTable]
  apply image_eq_of_fields
  · rw [a5, b5]
  · rw [a6, b6]
  · rw [a7, b7]
  · exact hc
  · rw [a2, b2, hc]
  · rw [a8, b8]

-- the body loop with zero pixels still needed returns at once
theorem read_body_zero (img : XtsImage) (px : List Nat) (lines : List String) :
    read_body img px 0 lines = .ok { img with pixels := px } lines := by
  cases lines <;> simp [read_body]

-- the body loop consumes lines: the leftover suffix is never longer
theorem read_body_rest_le (ls : List String) :
    ∀ img px count out rest, read_body img px count ls = .ok out rest →
      rest.length ≤ ls.length := by
  induction ls with
  | nil =>
    intro img px count out rest h
    by_cases hc : count = 0
    · subst hc
      rw [read_body_zero] at h
      simp only [ReadResult.ok.injEq] at h
      simp [← h.2]
    · simp [read_body, hc] at h
  | cons l ls ih =>
    intro img px count out rest h
    by_cases hc : count = 0
    · subst hc
      rw [read_body_zero] at h
      simp only [ReadResult.ok.injEq] at h
      simp [← h.2]
    · simp only [read_body, if_neg hc] at h
      cases hp : parseLine l with
      | none => rw [hp] at h; simp at h
      | some rp =>
        rw [hp] at h
        obtain ⟨run, pixel⟩ := rp
        simp only at h
        by_cases hr : count < run
        · rw [if_pos hr] at h; simp at h
        · rw [if_neg hr] at h
          have := ih _ _ _ _ _ h
          simp
          omega

-- on success, find_color is called exactly once per consumed body line
theorem read_body_calls (ls : List String) :
    ∀ img px count out rest, read_body img px count ls = .ok out rest →
      body_calls count ls = ls.length - rest.length := by
  induction ls with
  | nil =>
    intro img px count out rest h
    by_cases hc : count = 0
    · subst hc
      simp [body_calls]
    · simp [read_body, hc] at h
  | cons l ls ih =>
    intro img px count out rest h
    by_cases hc : count = 0
    · subst hc
      rw [read_body_zero] at h
      simp only [ReadResult.ok.injEq] at h
      simp [body_calls, ← h.2]
    · simp only [read_body, if_neg hc] at h
      cases hp : parseLine l with
      | none => rw [hp] at h; simp at h
      | some rp =>
        rw [hp] at h
        obtain ⟨run, pixel⟩ := rp
        simp only at h
        by_cases hr : count < run
        · rw [if_pos hr] at h; simp at h
        · rw [if_neg hr] at h
          have hrest := read_body_rest_le ls _ _ _ _ _ h
          have hcall := ih _ _ _ _ _ h
          simp only [body_calls, if_neg hc, hp, if_neg hr, hcall, List.length_cons]
          omega

-- on success, the result is a function of the consumed prefix of lines alone
theorem read_body_consumed (ls : List String) :
    ∀ img px count out rest, read_body img px count ls = .ok out rest →
      ∃ consumed, ls = consumed ++ rest ∧
        ∀ rest2, read_body img px count (consumed ++ rest2) = .ok out rest2 := by
  induction ls with
  | nil =>
    intro img px count out rest h
    by_cases hc : count = 0
    · subst hc
      rw [read_body_zero] at h
      simp only [ReadResult.ok.injEq] at h
      refine ⟨[], by simp [← h.2], fun rest2 => ?_⟩
      rw [List.nil_append, read_body_zero, h.1]
    · simp [read_body, hc] at h
  | cons l ls ih =>
    intro img px count out rest h
    by_cases hc : count = 0
    · subst hc
      rw [read_body_zero] at h
      simp only [ReadResult.ok.injEq] at h
      refine ⟨[], by simp [← h.2], fun rest2 => ?_⟩
      rw [List.nil_append, read_body_zero, h.1]
    · simp only [read_body, if_neg hc] at h
      cases hp : parseLine l with
      | none => rw [hp] at h; simp at h
      | some rp =>
        rw [hp] at h
        obtain ⟨run, pixel⟩ := rp
        simp only at h
        by_cases hr : count < run
        · rw [if_pos hr] at h; simp at h
        · rw [if_neg hr] at h
          obtain ⟨consumed, hsplit, hrun⟩ := ih _ _ _ _ _ h
          refine ⟨l :: consumed, by simp [hsplit], fun rest2 => ?_⟩
          simp only [List.cons_append, read_body, if_neg hc, hp, if_neg hr]
          exact hrun rest2

-- read_image consumes at least the header line on success
theorem read_image_rest_lt (a : Bool) (lines : List String) (img : XtsImage)
    (rest : List String) (h : read_image_a a lines = .ok img rest) :
    rest.length < lines.length := by
  cases lines with
  | nil => simp [read_image_a] at h
  | cons l ls =>
    simp only [read_image_a] at h
    cases hh : parseHeader l with
    | none => rw [hh] at h; simp at h
    | some whd =>
      rw [hh] at h
      obtain ⟨w, hgt, d⟩ := whd
      cases a with
      | false => simp at h
      | true =>
        simp only [if_true] at h
        cases hb : read_body (emptyImage w hgt d) [] (w * hgt) ls with
        | ok img0 rest0 =>
          rw [hb] at h
          simp only [ReadResult.ok.injEq] at h
          have := read_body_rest_le ls _ _ _ _ _ hb
          simp [← h.2]
          omega
        | stop => rw [hb] at h; simp at h
        | bodyError m => rw [hb] at h; simp at h

-- the fuel given to the per-file loop is irrelevant once it exceeds the
-- number of remaining lines, so the fuelled loop is the C while loop
theorem processFileAux_congr (a : Bool) (n : Nat) :
    ∀ f1 f2 lines, lines.length ≤ n → lines.length < f1 → lines.length < f2 →
      processFileAux a f1 lines = processFileAux a f2 lines := by
  induction n with
  | zero =>
    intro f1 f2 lines hn h1 h2
    have : lines = [] := List.eq_nil_of_length_eq_zero (Nat.le_zero.mp hn)
    subst this
    obtain ⟨g1, rfl⟩ : ∃ g1, f1 = g1 + 1 := ⟨f1 - 1, by omega⟩
    obtain ⟨g2, rfl⟩ : ∃ g2, f2 = g2 + 1 := ⟨f2 - 1, by omega⟩
    simp [processFileAux, read_image_a]
  | succ n ih =>
    intro f1 f2 lines hn h1 h2
    obtain ⟨g1, rfl⟩ : ∃ g1, f1 = g1 + 1 := ⟨f1 - 1, by omega⟩
    obtain ⟨g2, rfl⟩ : ∃ g2, f2 = g2 + 1 := ⟨f2 - 1, by omega⟩
    simp only [processFileAux]
    cases hr : read_image_a a lines with
    | ok img rest =>
      have hlt := read_image_rest_lt a lines img rest hr
      show img :: processFileAux a g1 rest = img :: processFileAux a g2 rest
      rw [ih g1 g2 rest (by omega) (by omega) (by omega)]
    | stop => rfl
    | bodyError m => rfl

theorem processFileAux_fuel_irrel (a : Bool) (f : Nat) (lines : List String)
    (h : lines.length < f) : processFileAux a f lines = processFileA a lines :=
  processFileAux_congr a lines.length f (lines.length + 1) lines le_rfl h (by omega)

-- assign_rgb preserves the chain length
theorem assign_aux_len (n i : Nat) (cs : List XtsColor) :
    (assign_rgb_aux n i cs).length = cs.length := by
  induction cs generalizing i with
  | nil => rfl
  | cons c cs ih => simp [assign_rgb_aux, ih]

-- index characterisation of the assign_rgb walk
theorem assign_aux_get (n : Nat) (cs : List XtsColor) :
    ∀ i k, (assign_rgb_aux n i cs)[k]? =
      (cs[k]?).map fun c =>
        setColor c (assign_hsv (((i + k : Nat) : ℚ) / (n : ℚ)) 1 (1 / 2)) := by
  induction cs with
  | nil => intro i k; simp [assign_rgb_aux]
  | cons c cs ih =>
    intro i k
    cases k with
    | zero => simp [assign_rgb_aux]
    | succ k =>
      simp only [assign_rgb_aux, List.getElem?_cons_succ, ih (i + 1) k]
      have : i + 1 + k = i + (k + 1) := by omega
      rw [this]

-- on success read_image is a function of the consumed prefix of lines alone
theorem read_image_consumed (lines : List String) (img : XtsImage)
    (rest : List String) (h : read_image lines = .ok img rest) :
    ∃ consumed, lines = consumed ++ rest ∧
      ∀ rest2, read_image (consumed ++ rest2) = .ok img rest2 := by
  cases lines with
  | nil => simp [read_image, read_image_a] at h
  | cons l ls =>
    simp only [read_image, read_image_a] at h
    cases hh : parseHeader l with
    | none => rw [hh] at h; simp at h
    | some whd =>
      rw [hh] at h
      obtain ⟨w, hgt, d⟩ := whd
      simp only [if_true] at h
      cases hb : read_body (emptyImage w hgt d) [] (w * hgt) ls with
      | ok img0 rest0 =>
        rw [hb] at h
        simp only [ReadResult.ok.injEq] at h
        obtain ⟨consumed, hsplit, hrun⟩ := read_body_consumed ls _ _ _ _ _ hb
        refine ⟨l :: consumed, by simp [hsplit, h.2], fun rest2 => ?_⟩
        simp only [List.cons_append, read_image, read_image_a, hh, hrun rest2, if_true]
        rw [h.1]
      | stop => rw [hb] at h; simp at h
      | bodyError m => rw [hb] at h; simp at h

-- the three-entry table fully colored
theorem assign_table3 :
    assign_rgb (XtsImage.mk 0 0 0 [⟨1, 0, 0, 0⟩, ⟨2, 0, 0, 0⟩, ⟨3, 0, 0, 0⟩] 3 []) =
      ⟨0, 0, 0, [⟨1, 127, 0, 0⟩, ⟨2, 0, 127, 0⟩, ⟨3, 0, 0, 127⟩], 3, []⟩ := by
  simp only [assign_rgb, assign_rgb_aux]
  norm_num [setColor, hsv_h0, hsv_h13, hsv_h23]

/-! Claim theorems. -/

/-- Claim C1, counterexample: with three distinct pixel values the code does
not use any grayscale branch; the sorted entries receive the colors
(127, 0, 0), (0, 127, 0), (0, 0, 127), so entry 0 is not the claimed white
(255, 255, 255). -/
theorem C1_counterexample :
    (assign_rgb (buildTable [1, 2, 3])).colors.map (fun c => (c.r, c.g, c.b))
      = [(127, 0, 0), (0, 127, 0), (0, 0, 127)] ∧
    (((127, 0, 0) : Nat × Nat × Nat) ≠ (255, 255, 255)) := by
  refine ⟨?_, by decide⟩
  have hb : buildTable [1, 2, 3]
      = ⟨0, 0, 0, [⟨1, 0, 0, 0⟩, ⟨2, 0, 0, 0⟩, ⟨3, 0, 0, 0⟩], 3, []⟩ := by decide
  rw [hb, assign_table3]
  decide

/-- Claim C1, amended: assign_rgb walks the sorted entries with zero-based
index i and gives every entry hue = i / n, saturation = 1, value = 1/2 (no
grayscale branch exists); for three distinct pixel values the entries get
(127, 0, 0), (0, 127, 0), (0, 0, 127). -/
theorem C1_uniform_hsv_assignment :
    (∀ (img : XtsImage) (k : Nat),
      ((assign_rgb img).colors)[k]? =
        (img.colors[k]?).map fun c =>
          setColor c (assign_hsv ((k : ℚ) / (img.num_colors : ℚ)) 1 (1 / 2))) ∧
    (assign_rgb (buildTable [1, 2, 3])).colors
      = [⟨1, 127, 0, 0⟩, ⟨2, 0, 127, 0⟩, ⟨3, 0, 0, 127⟩] := by
  constructor
  · intro img k
    have h := assign_aux_get img.num_colors img.colors 0 k
    simpa [assign_rgb] using h
  · have hb : buildTable [1, 2, 3]
        = ⟨0, 0, 0, [⟨1, 0, 0, 0⟩, ⟨2, 0, 0, 0⟩, ⟨3, 0, 0, 0⟩], 3, []⟩ := by decide
    rw [hb, assign_table3]

/-- Claim C2, counterexample: a declared run longer than the pixels still
needed is not truncated; on the claimed input the decoder prints
"run left over" and fails instead of producing a frame. -/
theorem C2_counterexample :
    read_image ["2 1 8", "0003,00ff0000"] = .bodyError "run left over" := by
  decide

/-- Claim C2, amended: a body line whose run exceeds the remaining pixel
count makes the decode of that frame fail with the "run left over"
diagnostic (the run is not truncated to the remaining count). -/
theorem C2_overrun_is_error (img : XtsImage) (px : List Nat) (count : Nat)
    (l : String) (ls : List String) (run pixel : Nat)
    (hp : parseLine l = some (run, pixel)) (hc : 0 < count) (hr : count < run) :
    read_body img px count (l :: ls) = .bodyError "run left over" := by
  have hc0 : ¬ count = 0 := by omega
  simp [read_body, hc0, hp, hr]

theorem C2_overrun_is_error_witness :
    read_body (emptyImage 2 1 8) [] 2 ["0003,00ff0000"] = .bodyError "run left over" :=
  C2_overrun_is_error (emptyImage 2 1 8) [] 2 "0003,00ff0000" [] 3 0x00ff0000
    (by decide) (by decide) (by decide)

/-- Claim C3: inserting the same set of distinct pixel values in any two
orders and with any duplicate frequencies, then running the color assigner,
yields identical tables, hence the identical RGB color for every pixel
value. -/
theorem C3_assign_deterministic (l1 l2 : List Nat)
    (h : l1.toFinset = l2.toFinset) :
    assign_rgb (buildTable l1) = assign_rgb (buildTable l2) := by
  rw [buildTable_eq_of_toFinset l1 l2 h]

theorem C3_assign_deterministic_witness :
    (([2, 1, 2] : List Nat).toFinset = ([1, 2] : List Nat).toFinset) ∧
    assign_rgb (buildTable [2, 1, 2]) = assign_rgb (buildTable [1, 2]) :=
  ⟨by decide, C3_assign_deterministic [2, 1, 2] [1, 2] (by decide)⟩

/-- Claim C4: after any sequence of find_color insertions starting from a
fresh table, sorted iteration yields the entries in strictly ascending pixel
order with no duplicate pixel, num_colors equals the number of entries and
the number of distinct values ever inserted, and iterating twice yields
identical sequences. -/
theorem C4_table_invariants (ps : List Nat) :
    List.Pairwise (· < ·) (chainKeys (iterate_sorted (buildTable ps))) ∧
    (chainKeys (iterate_sorted (buildTable ps))).Nodup ∧
    (buildTable ps).num_colors = (iterate_sorted (buildTable ps)).length ∧
    (buildTable ps).num_colors = ps.toFinset.card ∧
    iterate_sorted (buildTable ps) = iterate_sorted (buildTable ps) := by
  obtain ⟨a1, a2, a3, a4, _, _, _, _⟩ :=
    build_inv ps (emptyImage 0 0 0) (by simp [emptyImage, chainKeys]) rfl
      (by simp [emptyImage])
  have hkeys : (chainKeys (buildTable ps).colors).toFinset = ps.toFinset := by
    rw [show (buildTable ps).colors = (List.foldl insertPixel (emptyImage 0 0 0) ps).colors
      from rfl, a4]
    simp [emptyImage, chainKeys]
  have hnodup : (chainKeys (buildTable ps).colors).Nodup := keys_nodup _ a1
  refine ⟨a1, hnodup, ?_, ?_, rfl⟩
  · exact a2
  · have hlen : (chainKeys (buildTable ps).colors).length = (buildTable ps).colors.length :=
      List.length_map _ _
    have ha2 : (buildTable ps).num_colors = (buildTable ps).colors.length := a2
    rw [ha2, ← hlen, ← List.toFinset_card_of_nodup hnodup, hkeys]

/-- Claim C5: find_color on a pixel value already present in a (sorted)
table returns the stored entry itself, with its stored fields, and modifies
nothing: the table, including num_colors, is returned unchanged. -/
theorem C5_lookup_idempotent (img : XtsImage) (p : Nat)
    (hs : List.Pairwise (· < ·) (chainKeys img.colors))
    (hm : p ∈ chainKeys img.colors) :
    (find_color img p).2 = img ∧ (find_color img p).1 ∈ img.colors ∧
    (find_color img p).1.pixel = p ∧
    (find_color img p).2.num_colors = img.num_colors := by
  obtain ⟨h1, h2, h3, h4⟩ := fcc_found img.colors p hs hm
  have himg : (find_color img p).2 = img := by
    simp [find_color, h1, h2]
  refine ⟨himg, ?_, ?_, by rw [himg]⟩
  · simpa [find_color] using h3
  · simpa [find_color] using h4

theorem C5_lookup_idempotent_witness :
    (find_color ⟨0, 0, 0, [⟨3, 0, 0, 0⟩, ⟨5, 0, 0, 0⟩], 2, []⟩ 5).2
        = ⟨0, 0, 0, [⟨3, 0, 0, 0⟩, ⟨5, 0, 0, 0⟩], 2, []⟩ ∧
    (find_color ⟨0, 0, 0, [⟨3, 0, 0, 0⟩, ⟨5, 0, 0, 0⟩], 2, []⟩ 5).1
        ∈ [(⟨3, 0, 0, 0⟩ : XtsColor), ⟨5, 0, 0, 0⟩] ∧
    (find_color ⟨0, 0, 0, [⟨3, 0, 0, 0⟩, ⟨5, 0, 0, 0⟩], 2, []⟩ 5).1.pixel = 5 ∧
    (find_color ⟨0, 0, 0, [⟨3, 0, 0, 0⟩, ⟨5, 0, 0, 0⟩], 2, []⟩ 5).2.num_colors = 2 :=
  C5_lookup_idempotent ⟨0, 0, 0, [⟨3, 0, 0, 0⟩, ⟨5, 0, 0, 0⟩], 2, []⟩ 5
    (by decide) (by decide)

/-- Claim C6, code bug: with saturation 0 and value 1 the conversion is
supposed to return the gray (v, v, v) = (255, 255, 255), but the source's
`s == 0` branch computes the channels from s instead of v and returns
(0, 0, 0). -/
theorem C6_s0_branch_black :
    assign_hsv 0 0 1 = (0, 0, 0) ∧
    (((0, 0, 0) : Nat × Nat × Nat) ≠ (255, 255, 255)) := by
  refine ⟨?_, by decide⟩
  norm_num [assign_hsv, float_to_uint]

/-- Claim C7, counterexample: the frame "2 1 8" / "0002,ff" decodes
successfully with width*height = 2 pixels, but find_color is invoked once
(once per line), not once per decoded pixel occurrence. -/
theorem C7_counterexample :
    read_image ["2 1 8", "0002,ff"] = .ok exImg2 [] ∧
    body_calls 2 ["0002,ff"] = 1 ∧
    exImg2.width * exImg2.height = 2 ∧ (1 : Nat) ≠ 2 :=
  ⟨read_image_run2, by decide, by decide, by decide⟩

/-- Claim C7, amended: during the decode of a frame body, find_color is
invoked exactly once per consumed body line (one call per run, whatever the
run length), so a successful decode makes as many calls as lines consumed. -/
theorem C7_calls_per_line (img : XtsImage) (px : List Nat) (count : Nat)
    (ls : List String) (out : XtsImage) (rest : List String)
    (h : read_body img px count ls = .ok out rest) :
    body_calls count ls = ls.length - rest.length :=
  read_body_calls ls img px count out rest h

theorem C7_calls_per_line_witness :
    body_calls 2 ["0002,ff"]
      = (["0002,ff"] : List String).length - ([] : List String).length :=
  C7_calls_per_line (emptyImage 2 1 8) [] 2 ["0002,ff"] exImg2raw [] (by decide)

/-- Claim C8: a body line that parses neither as run,pixel nor as a bare
pixel makes the decoder report "run bad" and discard the frame; the file's
decoding stops there (read_image returns a non-frame result, ending main's
per-file loop), while subsequent input files are still processed. -/
theorem C8_malformed_line_aborts_file (fs : List (List String)) (img : XtsImage)
    (px : List Nat) (count : Nat) (l : String) (ls : List String)
    (hp : parseLine l = none) (hc : 0 < count) :
    read_body img px count (l :: ls) = .bodyError "run bad" ∧
    parseLine "zz" = none ∧
    read_image ["2 1 8", "zz"] = .bodyError "run bad" ∧
    processFiles (["2 1 8", "zz"] :: fs) = [] :: processFiles fs := by
  have hc0 : ¬ count = 0 := by omega
  refine ⟨by simp [read_body, hc0, hp], by decide, by decide, ?_⟩
  have hbad : processFileA true ["2 1 8", "zz"] = [] := by decide
  simp [processFiles, hbad]

theorem C8_malformed_line_aborts_file_witness :
    read_body (emptyImage 2 1 8) [] 2 ["zz"] = .bodyError "run bad" ∧
    parseLine "zz" = none ∧
    read_image ["2 1 8", "zz"] = .bodyError "run bad" ∧
    processFiles [["2 1 8", "zz"], ["1 1 8", "ab"]]
      = [] :: processFiles [["1 1 8", "ab"]] :=
  C8_malformed_line_aborts_file [["1 1 8", "ab"]] (emptyImage 2 1 8) [] 2 "zz" []
    (by decide) (by decide)

/-- Claim C9, counterexample: an allocation failure for the image buffer in
read_image does not abort the process; with the first file's allocation
failing and the second succeeding, the batch still emits the second file's
frame. -/
theorem C9_counterexample :
    mainRunA [false, true] [["1 1 8", "ab"], ["1 1 8", "ab"]] = [[], [exImg1]] ∧
    ([exImg1] : List XtsImage) ≠ [] := by
  constructor
  · have h1 : processFileA false ["1 1 8", "ab"] = [] := by decide
    have h2 : processFileA true ["1 1 8", "ab"] = [exImg1] := by
      have hstep : processFileA true ["1 1 8", "ab"]
          = match read_image_a true ["1 1 8", "ab"] with
            | .ok img rest => img :: processFileAux true 2 rest
            | _ => [] := rfl
      rw [hstep, read_image_a_ab]
      rfl
    simp [mainRunA, h1, h2]
  · decide

/-- Claim C9, amended: a failed allocation of the frame buffer in
read_image makes read_image return NULL silently (like a clean end of
input), so decoding of that file stops while the per-file batch loop
continues with the remaining files; that allocation failure does not abort
the process. -/
theorem C9_alloc_failure_skips_file (l : String) (ls : List String)
    (w h d : Nat) (a : Bool) (as : List Bool) (f : List String)
    (fs : List (List String)) (hh : parseHeader l = some (w, h, d)) :
    read_image_a false (l :: ls) = .stop ∧
    mainRunA (a :: as) (f :: fs) = processFileA a f :: mainRunA as fs := by
  refine ⟨?_, rfl⟩
  simp [read_image_a, hh]

theorem C9_alloc_failure_skips_file_witness :
    read_image_a false ["1 1 8", "ab"] = .stop ∧
    mainRunA [false, true] [["1 1 8", "ab"], ["1 1 8", "ab"]]
      = processFileA false ["1 1 8", "ab"] :: mainRunA [true] [["1 1 8", "ab"]] :=
  C9_alloc_failure_skips_file "1 1 8" ["ab"] 1 1 8 false [true] ["1 1 8", "ab"]
    [["1 1 8", "ab"]] (by decide)

/-- Claim C10: each read_image call builds its frame (color table included,
starting from the literal empty table in the definition) from the lines it
consumes alone: replacing everything after the consumed prefix changes
nothing in the returned frame, and the batch output of one file is
independent of the other files. -/
theorem C10_frame_independent :
    (∀ (lines : List String) (img : XtsImage) (rest : List String),
      read_image lines = .ok img rest →
        ∃ consumed, lines = consumed ++ rest ∧
          ∀ rest2, read_image (consumed ++ rest2) = .ok img rest2) ∧
    (∀ (f : List String) (fs : List (List String)),
      processFiles (f :: fs) = processFileA true f :: processFiles fs) :=
  ⟨fun lines img rest h => read_image_consumed lines img rest h,
   fun _ _ => rfl⟩

theorem C10_frame_independent_witness :
    ∃ consumed, (["1 1 8", "ab", "zz"] : List String) = consumed ++ ["zz"] ∧
      ∀ rest2, read_image (consumed ++ rest2) = .ok exImg1 rest2 :=
  C10_frame_independent.1 ["1 1 8", "ab", "zz"] exImg1 ["zz"] read_image_ab_junk
